import Mathlib

/-!
Verification of `download_wp_media.py` (WordpressMediaScraper).

The script paginates a WordPress media REST endpoint with adaptive page-size
shrinking and duplicate-based early termination, falls back to paginating the
posts endpoint and scraping `<img>` references from post bodies when the media
endpoint yields nothing, and downloads each discovered resource into a
date-bucketed folder.

Shallow embedding conventions:
* Network endpoints are modelled as pure functions `Nat → Nat → Response α`
  taking the `page` and `per_page` query parameters and returning either a
  transport exception or an HTTP status with a decoded item list (the body is
  only examined by the script on status 200).
* The `while True` pagination loops are rendered as fuel-indexed recursive
  functions returning `none` when fuel runs out; on `some` they return the
  collected items together with the trace of `(page, per_page)` request pairs
  issued, in order.  The Python code accumulates items and implicitly issues
  requests; the compositional rendering returns the same lists (prefix ++ rest
  instead of repeated append).
* The BeautifulSoup HTML parse is external to the script, so a post body is
  modelled as the list of `src` attribute values of its `<img src=...>` tags.
-/

/-- A decoded HTTP interaction outcome for one paginated request:
either a transport-level exception (`requests.get` raising), or a response
with a numeric status code and a decoded JSON body (a list of items; the
script reads the body only when the status is 200). -/
inductive Response (α : Type) where
  | exn : Response α
  | http : Nat → List α → Response α
deriving DecidableEq

/-- A media collection item as consumed by the script: `item.get("id")`,
`item.get("source_url")` and `item.get("date")`, each possibly absent. -/
structure MediaItem where
  id : Option Nat
  source_url : Option String
  date : Option String
deriving DecidableEq

/-- A posts collection item as consumed by the script: `post.get("id")`,
`post.get("date")`, and the rendered body markup.  The script hands the body
to BeautifulSoup and reads only the `src` attributes of `img` tags, so the
body is modelled as that list of raw `src` strings. -/
structure PostItem where
  id : Option Nat
  date : Option String
  imgSrcs : List String
deriving DecidableEq

/-- The inner per-page loop of `fetch_all_media_items` (lines 130-136):
walk the batch; an item whose id is not in `all_seen_ids` is appended to
`all_items`, its id added to `all_seen_ids` and to `new_page_ids`.  Returns
(items emitted from this page, updated seen set, `new_page_ids`), rendering
the Python append-accumulation compositionally. -/
def processPage (seen : Finset (Option Nat)) :
    List MediaItem → List MediaItem × Finset (Option Nat) × List (Option Nat)
  | [] => ([], seen, [])
  | item :: rest =>
    if item.id ∈ seen then processPage seen rest
    else
      let r := processPage (insert item.id seen) rest
      (item :: r.1, r.2.1, item.id :: r.2.2)

/-- The `while True` loop of `fetch_all_media_items` (lines 102-146), indexed
by fuel.  State: current `page_num`, `per_page`, `all_seen_ids`.  Returns
`none` on fuel exhaustion, otherwise the items emitted and the trace of
`(page, per_page)` request pairs issued from this state on.  Branches mirror
the source: transport exception → stop; status 400 → halve `per_page`
(`max MIN_PER_PAGE (per_page / 2)`) and retry the same page if `per_page > 1`,
else stop; status 200 → stop on empty batch, otherwise dedup the batch, stop
if no new ids, else advance `page_num`; any other status → stop. -/
def fetchMediaAux (req : Nat → Nat → Response MediaItem) :
    Nat → Nat → Nat → Finset (Option Nat) →
    Option (List MediaItem × List (Nat × Nat))
  | 0, _, _, _ => none
  | fuel + 1, page, perPage, seen =>
    match req page perPage with
    | Response.exn => some ([], [(page, perPage)])
    | Response.http code data =>
      if code = 400 then
        if perPage > 1 then
          (fetchMediaAux req fuel page (max 1 (perPage / 2)) seen).map
            (fun r => (r.1, (page, perPage) :: r.2))
        else some ([], [(page, perPage)])
      else if code = 200 then
        if data.isEmpty then some ([], [(page, perPage)])
        else if (processPage seen data).2.2.isEmpty then
          some ((processPage seen data).1, [(page, perPage)])
        else
          (fetchMediaAux req fuel (page + 1) perPage (processPage seen data).2.1).map
            (fun s => ((processPage seen data).1 ++ s.1, (page, perPage) :: s.2))
      else some ([], [(page, perPage)])

/-- Constant `INITIAL_PER_PAGE` (line 26). -/
def INITIAL_PER_PAGE : Nat := 100

/-- Function `fetch_all_media_items` (lines 90-148): start at `page_num = 1`,
`per_page = INITIAL_PER_PAGE = 100`, empty seen set. -/
def fetch_all_media_items (req : Nat → Nat → Response MediaItem)
    (fuel : Nat) : Option (List MediaItem × List (Nat × Nat)) :=
  fetchMediaAux req fuel 1 INITIAL_PER_PAGE ∅

/-- The `while True` loop of `fetch_all_posts` (lines 153-189), indexed by
fuel.  `per_page` is fixed at 20 and never reassigned; on a 400 the loop
breaks outright ("We'll just stop"); on 200 the whole batch is appended with
no duplicate detection; transport exceptions and other statuses break. -/
def fetchPostsAux (req : Nat → Nat → Response PostItem) :
    Nat → Nat → Option (List PostItem × List (Nat × Nat))
  | 0, _ => none
  | fuel + 1, page =>
    match req page 20 with
    | Response.exn => some ([], [(page, 20)])
    | Response.http code data =>
      if code = 400 then some ([], [(page, 20)])
      else if code = 200 then
        if data.isEmpty then some ([], [(page, 20)])
        else
          (fetchPostsAux req fuel (page + 1)).map
            (fun r => (data ++ r.1, (page, 20) :: r.2))
      else some ([], [(page, 20)])

/-- Function `fetch_all_posts` (lines 153-189): starts at `page_num = 1`. -/
def fetch_all_posts (req : Nat → Nat → Response PostItem)
    (fuel : Nat) : Option (List PostItem × List (Nat × Nat)) :=
  fetchPostsAux req fuel 1

/-- Python's `str.startswith` on the underlying character sequences. -/
def leadingChars : List Char → List Char → Bool
  | [], _ => true
  | _ :: _, [] => false
  | p :: ps, c :: cs => p == c && leadingChars ps cs

/-- Python's `s.startswith(pre)` as the script uses it on `img` `src` values. -/
def pyStartsWith (s pre : String) : Bool := leadingChars pre.data s.data

/-- Split a URL at its first `"://"`, returning the scheme part and the
remainder, or `none` when no `"://"` occurs. -/
def splitScheme : List Char → Option (List Char × List Char)
  | [] => none
  | ':' :: '/' :: '/' :: rest => some ([], rest)
  | c :: cs => (splitScheme cs).map (fun p => (c :: p.1, p.2))

/-- Modelled from the spec: resolution of a site-relative reference against
the base URL ("else if it begins with `/` (site-relative), resolve against
the site's base URL"), embedding Python's `urllib.parse.urljoin(base, url)`
for a root-relative `url`: keep the base's scheme and network location,
replace the path. -/
def urljoin (base url : String) : String :=
  match splitScheme base.data with
  | some (scheme, rest) =>
      String.mk (scheme ++ ':' :: '/' :: '/' ::
        rest.takeWhile (fun c => c != '/') ++ url.data)
  | none => url

/-- The fallback `post.get("date") or "unknown-date"` (line 198): Python `or` falls
through to the sentinel when the field is absent or the empty string
(both falsy). -/
def postDateStr (p : PostItem) : String :=
  match p.date with
  | none => "unknown-date"
  | some d => if d = "" then "unknown-date" else d

/-- Function `parse_images_from_posts` (lines 191-216), with the global `SITE_URL`
passed explicitly: for every post, for every `img` `src` value, normalize
(scheme-relative → `https:` prefixed; root-relative → joined with the site
URL; otherwise unchanged) and pair with the post's date string. -/
def parse_images_from_posts (siteUrl : String) (posts : List PostItem) :
    List (String × String) :=
  posts.flatMap (fun post =>
    post.imgSrcs.map (fun src =>
      (if pyStartsWith src "//" then "https:" ++ src
       else if pyStartsWith src "/" then urljoin siteUrl src
       else src, postDateStr post)))

/-- The Markup Extractor's reference-normalization rule exactly as worded in
the specification, written independently of the source loop so the two can
be compared: scheme-relative gets `https:` prefixed, site-relative resolves
against the base URL, anything else passes through unchanged. -/
def normalizeRefSpec (baseUrl ref : String) : String :=
  if pyStartsWith ref "//" then "https:" ++ ref
  else if pyStartsWith ref "/" then urljoin baseUrl ref
  else ref

/-- Gregorian leap-year rule, as used by Python's `datetime` calendar. -/
def isLeap (y : Nat) : Bool := (y % 4 == 0 && y % 100 != 0) || y % 400 == 0

/-- Number of days in a month of the proleptic Gregorian calendar. -/
def daysInMonth (y m : Nat) : Nat :=
  if m = 2 then (if isLeap y then 29 else 28)
  else if m = 4 ∨ m = 6 ∨ m = 9 ∨ m = 11 then 30
  else 31

/-- Numeric value of a decimal digit character. -/
def digitVal (c : Char) : Nat := c.toNat - 48

/-- Modelled from the spec: the time-of-day part tolerated after the
calendar date ("possibly absent or partially ISO-8601"), as
`datetime.fromisoformat` accepts it: `HH`, `HH:MM` or `HH:MM:SS` with range
checks. -/
def validTime : List Char → Bool
  | [h1, h2] =>
      h1.isDigit && h2.isDigit && decide (digitVal h1 * 10 + digitVal h2 < 24)
  | [h1, h2, c1, m1, m2] =>
      h1.isDigit && h2.isDigit && decide (digitVal h1 * 10 + digitVal h2 < 24) &&
      c1 == ':' && m1.isDigit && m2.isDigit &&
      decide (digitVal m1 * 10 + digitVal m2 < 60)
  | [h1, h2, c1, m1, m2, c2, s1, s2] =>
      h1.isDigit && h2.isDigit && decide (digitVal h1 * 10 + digitVal h2 < 24) &&
      c1 == ':' && m1.isDigit && m2.isDigit &&
      decide (digitVal m1 * 10 + digitVal m2 < 60) &&
      c2 == ':' && s1.isDigit && s2.isDigit &&
      decide (digitVal s1 * 10 + digitVal s2 < 60)
  | _ => false

/-- Modelled from the spec: `datetime.fromisoformat` on the stripped string
("attempt to parse a calendar date" from a possibly partial ISO-8601
string) — a four-digit year, two-digit month and two-digit day separated by
`-`, optionally followed by `T` or a space and a time of day; month and day
must form a valid calendar date; any other input raises `ValueError`,
rendered here as `none`. -/
def parseIsoDate (cs : List Char) : Option (Nat × Nat × Nat) :=
  match cs with
  | y1 :: y2 :: y3 :: y4 :: s1 :: m1 :: m2 :: s2 :: d1 :: d2 :: rest =>
    if y1.isDigit && y2.isDigit && y3.isDigit && y4.isDigit &&
        s1 == '-' && m1.isDigit && m2.isDigit && s2 == '-' &&
        d1.isDigit && d2.isDigit &&
        decide (1 ≤ digitVal m1 * 10 + digitVal m2) &&
        decide (digitVal m1 * 10 + digitVal m2 ≤ 12) &&
        decide (1 ≤ digitVal d1 * 10 + digitVal d2) &&
        decide (digitVal d1 * 10 + digitVal d2 ≤
          daysInMonth
            (((digitVal y1 * 10 + digitVal y2) * 10 + digitVal y3) * 10 +
              digitVal y4)
            (digitVal m1 * 10 + digitVal m2)) &&
        (match rest with
         | [] => true
         | t :: timePart => (t == 'T' || t == ' ') && validTime timePart) then
      some
        (((digitVal y1 * 10 + digitVal y2) * 10 + digitVal y3) * 10 + digitVal y4,
          digitVal m1 * 10 + digitVal m2, digitVal d1 * 10 + digitVal d2)
    else none
  | _ => none

/-- Zero-padded two-digit rendering, as `strftime`'s `%m`/`%d` produce. -/
def pad2 (n : Nat) : String := if n < 10 then "0" ++ toString n else toString n

/-- Zero-padded four-digit year, as `strftime`'s `%Y` produces for the years
`fromisoformat` accepts. -/
def pad4 (n : Nat) : String :=
  if n < 10 then "000" ++ toString n
  else if n < 100 then "00" ++ toString n
  else if n < 1000 then "0" ++ toString n
  else toString n

/-- Formatting `dt.strftime("%Y-%m-%d")` (line 48) applied to the parsed date. -/
def formatDate (y m d : Nat) : String := pad4 y ++ "-" ++ pad2 m ++ "-" ++ pad2 d

/-- Function `get_date_subfolder` (lines 41-50): strip every `"Z"` occurrence
(`date_str.replace("Z", "")`, equivalently dropping each `'Z'` character),
attempt the ISO parse, and return the `"unknown-date"` sentinel when the
parse raises `ValueError`. -/
def get_date_subfolder (date_str : String) : String :=
  match parseIsoDate (date_str.data.filter (fun c => c != 'Z')) with
  | some (y, m, d) => formatDate y m d
  | none => "unknown-date"

/-- The fallback `item.get("date") or ""` (line 243): an absent date and the empty
string both yield `""`. -/
def mediaDateStr (it : MediaItem) : String :=
  match it.date with
  | none => ""
  | some d => d

/-- An observable step of `main` (lines 221-245): one full primary (media)
enumeration, one full fallback (posts) enumeration, or one `download_file`
call with its URL and date-hint arguments. -/
inductive Event where
  | fetchMedia : Event
  | fetchPosts : Event
  | download : String → String → Event
deriving DecidableEq

/-- Function `main` (lines 221-245) as the sequence of observable events it performs,
given the two endpoints and the site URL; `none` when an enumeration runs
out of fuel.  The media enumeration runs first; only when its item list is
empty does the fallback run (fetch posts, extract image references, download
each); otherwise each media item carrying a `source_url` is downloaded. -/
def mainEvents (reqM : Nat → Nat → Response MediaItem)
    (reqP : Nat → Nat → Response PostItem) (siteUrl : String)
    (fuelM fuelP : Nat) : Option (List Event) :=
  match fetch_all_media_items reqM fuelM with
  | none => none
  | some (mediaItems, _) =>
    if mediaItems.isEmpty then
      match fetch_all_posts reqP fuelP with
      | none => none
      | some (posts, _) =>
        some (Event.fetchMedia :: Event.fetchPosts ::
          (parse_images_from_posts siteUrl posts).map
            (fun pr => Event.download pr.1 pr.2))
    else
      some (Event.fetchMedia ::
        mediaItems.flatMap (fun it =>
          match it.source_url with
          | some u => [Event.download u (mediaDateStr it)]
          | none => []))

/-! ### Mock endpoints used to exercise the pagination loops -/

/-- A mock posts endpoint whose first two pages repeat the same item. -/
def dupPostsEndpoint : Nat → Nat → Response PostItem := fun page _ =>
  if page ≤ 2 then Response.http 200 [⟨some 1, none, []⟩]
  else Response.http 200 []

/-- A mock posts endpoint answering 400 to every request. -/
def alwaysBadRequest : Nat → Nat → Response PostItem := fun _ _ =>
  Response.http 400 []

/-- A mock media endpoint: two pages of items overlapping in one id,
then the natural end of the collection. -/
def overlapMediaEndpoint : Nat → Nat → Response MediaItem := fun page _ =>
  if page = 1 then Response.http 200 [⟨some 1, none, none⟩, ⟨some 2, none, none⟩]
  else if page = 2 then Response.http 200 [⟨some 2, none, none⟩, ⟨some 3, none, none⟩]
  else Response.http 200 []

/-- A mock media endpoint returning one id-less item on every page. -/
def idlessMediaEndpoint : Nat → Nat → Response MediaItem := fun _ _ =>
  Response.http 200 [⟨none, none, none⟩]

/-- A mock media endpoint rejecting page sizes above 25 with a 400,
then serving two one-item pages. -/
def shrinkMediaEndpoint : Nat → Nat → Response MediaItem := fun page perPage =>
  if perPage > 25 then Response.http 400 []
  else if page = 1 then Response.http 200 [⟨some 1, none, none⟩]
  else if page = 2 then Response.http 200 [⟨some 2, none, none⟩]
  else Response.http 200 []

/-- A mock media endpoint whose collection is empty. -/
def emptyMediaEndpoint : Nat → Nat → Response MediaItem := fun _ _ =>
  Response.http 200 []

/-- A mock posts endpoint whose collection is empty. -/
def emptyPostsEndpoint : Nat → Nat → Response PostItem := fun _ _ =>
  Response.http 200 []

/-- A mock media endpoint serving the same one-item page forever. -/
def stagnantMediaEndpoint : Nat → Nat → Response MediaItem := fun _ _ =>
  Response.http 200 [⟨some 5, none, none⟩]

/-! ### Lemmas about the per-page dedup loop -/

lemma processPage_seen_subset (data : List MediaItem) :
    ∀ seen : Finset (Option Nat), seen ⊆ (processPage seen data).2.1 := by
  induction data with
  | nil => intro seen; simp [processPage]
  | cons item rest ih =>
    intro seen
    simp only [processPage]
    split
    · exact ih seen
    · exact fun x hx =>
        ih (insert item.id seen) (Finset.mem_insert_of_mem hx)

lemma processPage_newIds_eq (data : List MediaItem) :
    ∀ seen : Finset (Option Nat),
      (processPage seen data).2.2 = (processPage seen data).1.map MediaItem.id := by
  induction data with
  | nil => intro seen; simp [processPage]
  | cons item rest ih =>
    intro seen
    simp only [processPage]
    split
    · exact ih seen
    · simp [ih (insert item.id seen)]

lemma processPage_items_mem (data : List MediaItem) :
    ∀ seen : Finset (Option Nat), ∀ it ∈ (processPage seen data).1,
      it ∈ data ∧ it.id ∉ seen ∧ it.id ∈ (processPage seen data).2.1 := by
  induction data with
  | nil => intro seen it hit; simp [processPage] at hit
  | cons item rest ih =>
    intro seen it hit
    simp only [processPage] at hit ⊢
    split at hit
    · rename_i hmem
      obtain ⟨h1, h2, h3⟩ := ih seen it hit
      rw [if_pos hmem]
      exact ⟨List.mem_cons_of_mem _ h1, h2, h3⟩
    · rename_i hmem
      rw [if_neg hmem]
      rcases List.mem_cons.mp hit with h | h
      · subst h
        refine ⟨List.mem_cons_self _ _, hmem, ?_⟩
        exact processPage_seen_subset rest (insert it.id seen)
          (Finset.mem_insert_self _ _)
      · obtain ⟨h1, h2, h3⟩ := ih (insert item.id seen) it h
        exact ⟨List.mem_cons_of_mem _ h1,
          fun hx => h2 (Finset.mem_insert_of_mem hx), h3⟩

lemma processPage_nodup (data : List MediaItem) :
    ∀ seen : Finset (Option Nat),
      ((processPage seen data).1.map MediaItem.id).Nodup := by
  induction data with
  | nil => intro seen; simp [processPage]
  | cons item rest ih =>
    intro seen
    simp only [processPage]
    split
    · exact ih seen
    · simp only [List.map_cons, List.nodup_cons]
      refine ⟨?_, ih (insert item.id seen)⟩
      intro hmem
      obtain ⟨it, hit, hid⟩ := List.mem_map.mp hmem
      obtain ⟨-, h2, -⟩ := processPage_items_mem rest (insert item.id seen) it hit
      exact h2 (hid ▸ Finset.mem_insert_self _ _)

lemma processPage_all_seen (data : List MediaItem) :
    ∀ seen : Finset (Option Nat), (∀ it ∈ data, it.id ∈ seen) →
      processPage seen data = ([], seen, []) := by
  induction data with
  | nil => intro seen _; simp [processPage]
  | cons item rest ih =>
    intro seen hall
    simp only [processPage]
    rw [if_pos (hall item (List.mem_cons_self _ _))]
    exact ih seen (fun it hit => hall it (List.mem_cons_of_mem _ hit))

/-! ### The no-duplicate invariant of the media paginator -/

lemma fetchMediaAux_nodup (req : Nat → Nat → Response MediaItem) :
    ∀ fuel page perPage seen its reqs,
      fetchMediaAux req fuel page perPage seen = some (its, reqs) →
      (its.map MediaItem.id).Nodup ∧ ∀ it ∈ its, it.id ∉ seen := by
  intro fuel
  induction fuel with
  | zero => intro page perPage seen its reqs h; simp [fetchMediaAux] at h
  | succ n ih =>
    intro page perPage seen its reqs h
    rw [fetchMediaAux] at h
    split at h
    · -- transport exception
      simp only [Option.some.injEq, Prod.mk.injEq] at h
      obtain ⟨h1, -⟩ := h
      subst h1; simp
    · -- an HTTP response
      split at h
      · -- status 400
        split at h
        · -- per_page > 1: halve and retry, same seen set
          obtain ⟨⟨its0, reqs0⟩, hrec, heq⟩ := Option.map_eq_some'.mp h
          simp only [Prod.mk.injEq] at heq
          obtain ⟨h1, -⟩ := heq
          subst h1
          exact ih _ _ _ _ _ hrec
        · simp only [Option.some.injEq, Prod.mk.injEq] at h
          obtain ⟨h1, -⟩ := h
          subst h1; simp
      · split at h
        · -- status 200
          split at h
          · -- empty batch
            simp only [Option.some.injEq, Prod.mk.injEq] at h
            obtain ⟨h1, -⟩ := h
            subst h1; simp
          · split at h
            · -- stagnation: items of this page only
              rename_i code data heq h400 h200 hne hstag
              simp only [Option.some.injEq, Prod.mk.injEq] at h
              obtain ⟨h1, -⟩ := h
              subst h1
              exact ⟨processPage_nodup data seen,
                fun it hit => (processPage_items_mem data seen it hit).2.1⟩
            · -- advance to the next page
              rename_i code data heq h400 h200 hne hstag
              obtain ⟨⟨its0, reqs0⟩, hrec, heq⟩ := Option.map_eq_some'.mp h
              simp only [Prod.mk.injEq] at heq
              obtain ⟨h1, -⟩ := heq
              subst h1
              obtain ⟨hnd0, hnotin0⟩ := ih _ _ _ _ _ hrec
              constructor
              · rw [List.map_append, List.nodup_append]
                refine ⟨processPage_nodup data seen, hnd0, ?_⟩
                intro x hx hx0
                obtain ⟨it, hit, hid⟩ := List.mem_map.mp hx
                obtain ⟨it0, hit0, hid0⟩ := List.mem_map.mp hx0
                obtain ⟨-, -, hinseen⟩ := processPage_items_mem data seen it hit
                exact hnotin0 it0 hit0 (hid0 ▸ hid ▸ hinseen)
              · intro it hit
                rcases List.mem_append.mp hit with hcase | hcase
                · exact (processPage_items_mem data seen it hcase).2.1
                · exact fun hx => hnotin0 it hcase
                    (processPage_seen_subset data seen hx)
        · -- other status
          simp only [Option.some.injEq, Prod.mk.injEq] at h
          obtain ⟨h1, -⟩ := h
          subst h1; simp

lemma count_none_le_of_nodup (l : List MediaItem)
    (h : (l.map MediaItem.id).Nodup) :
    (l.filter (fun it => it.id.isNone)).length ≤ 1 := by
  induction l with
  | nil => simp
  | cons a l ih =>
    rw [List.map_cons, List.nodup_cons] at h
    rw [List.filter_cons]
    by_cases ha : a.id.isNone
    · rw [if_pos (by simpa using ha)]
      have hnil : List.filter (fun it => it.id.isNone) l = [] := by
        rw [List.filter_eq_nil_iff]
        intro b hb hbnone
        apply h.1
        have hba : b.id = a.id := by
          rw [Option.isNone_iff_eq_none] at ha hbnone
          rw [ha, hbnone]
        exact hba ▸ List.mem_map_of_mem MediaItem.id hb
      rw [hnil]
      simp
    · rw [if_neg (by simpa using ha)]
      exact ih h.2

/-- **C1 (amended).** Within a single invocation, the primary (media)
Paginator never emits two items with the same id: an item is emitted only
if its id is not in the seen set at the time its page is processed, and its
id enters the seen set upon emission.  (The secondary posts enumeration
performs no duplicate suppression, see the counterexample.) -/
theorem media_paginator_nodup (req : Nat → Nat → Response MediaItem)
    (fuel : Nat) (its : List MediaItem) (reqs : List (Nat × Nat))
    (h : fetch_all_media_items req fuel = some (its, reqs)) :
    (its.map MediaItem.id).Nodup :=
  (fetchMediaAux_nodup req fuel 1 INITIAL_PER_PAGE ∅ its reqs h).1

/-- Witness for `media_paginator_nodup`: on an endpoint whose two pages
overlap in id 2, the emitted ids are [1, 2, 3], each exactly once. -/
theorem media_paginator_nodup_witness :
    (([⟨some 1, none, none⟩, ⟨some 2, none, none⟩,
       (⟨some 3, none, none⟩ : MediaItem)]).map MediaItem.id).Nodup :=
  media_paginator_nodup overlapMediaEndpoint 10
    [⟨some 1, none, none⟩, ⟨some 2, none, none⟩, ⟨some 3, none, none⟩]
    [(1, 100), (2, 100), (3, 100)] (by decide)

/-- **C1, counterexample.** The claim quantifies over both enumerations,
but `fetch_all_posts` keeps no seen-id set: a posts endpoint that repeats
the same item on two pages makes it emit the same id twice. -/
theorem posts_duplicate_emission :
    fetch_all_posts dupPostsEndpoint 10 =
      some ([⟨some 1, none, []⟩, ⟨some 1, none, []⟩],
        [(1, 20), (2, 20), (3, 20)]) ∧
    ¬ (([⟨some 1, none, []⟩,
        (⟨some 1, none, []⟩ : PostItem)]).map PostItem.id).Nodup :=
  ⟨by decide, by decide⟩

/-- **C9.** All media items lacking an id share the single missing-id
duplicate-detection key, so at most one id-less item is ever emitted in one
invocation, across all pages. -/
theorem missing_id_single_emission (req : Nat → Nat → Response MediaItem)
    (fuel : Nat) (its : List MediaItem) (reqs : List (Nat × Nat))
    (h : fetch_all_media_items req fuel = some (its, reqs)) :
    (its.filter (fun it => it.id.isNone)).length ≤ 1 :=
  count_none_le_of_nodup its
    (fetchMediaAux_nodup req fuel 1 INITIAL_PER_PAGE ∅ its reqs h).1

/-- Witness for `missing_id_single_emission`: an endpoint serving an
id-less item on every page yields exactly one emitted item. -/
theorem missing_id_single_emission_witness :
    (([(⟨none, none, none⟩ : MediaItem)]).filter
      (fun it => it.id.isNone)).length ≤ 1 :=
  missing_id_single_emission idlessMediaEndpoint 10
    [⟨none, none, none⟩] [(1, 100), (2, 100)] (by decide)

lemma fetchPostsAux_sizes (req : Nat → Nat → Response PostItem) :
    ∀ fuel page its reqs,
      fetchPostsAux req fuel page = some (its, reqs) →
      ∀ r ∈ reqs, r.2 = 20 := by
  intro fuel
  induction fuel with
  | zero => intro page its reqs h; simp [fetchPostsAux] at h
  | succ n ih =>
    intro page its reqs h
    rw [fetchPostsAux] at h
    split at h
    · simp only [Option.some.injEq, Prod.mk.injEq] at h
      obtain ⟨-, h2⟩ := h
      subst h2; simp
    · split at h
      · simp only [Option.some.injEq, Prod.mk.injEq] at h
        obtain ⟨-, h2⟩ := h
        subst h2; simp
      · split at h
        · split at h
          · simp only [Option.some.injEq, Prod.mk.injEq] at h
            obtain ⟨-, h2⟩ := h
            subst h2; simp
          · obtain ⟨⟨its0, reqs0⟩, hrec, heq2⟩ := Option.map_eq_some'.mp h
            simp only [Prod.mk.injEq] at heq2
            obtain ⟨-, h2⟩ := heq2
            subst h2
            intro r hr
            rcases List.mem_cons.mp hr with hcase | hcase
            · subst hcase; rfl
            · exact ih _ _ _ hrec r hcase
        · simp only [Option.some.injEq, Prod.mk.injEq] at h
          obtain ⟨-, h2⟩ := h
          subst h2; simp

/-- **C6, counterexample.** The secondary paginator does not halve and
retry on a 400: an endpoint answering 400 to the very first request (at
page size 20 > 1) makes `fetch_all_posts` stop after that single request,
with no halved retry. -/
theorem posts_400_no_retry :
    alwaysBadRequest 1 20 = Response.http 400 [] ∧ (1 : Nat) < 20 ∧
    fetch_all_posts alwaysBadRequest 5 = some ([], [(1, 20)]) :=
  ⟨rfl, by omega, by decide⟩

/-- **C6 (amended).** The secondary (posts) collection is paginated with
the fixed page size 20 for every request, and on any 400 response it
terminates immediately — it does not shrink the page size or retry.  (Its
other stops — transport error, empty batch, other status — match the
primary's; it has no stagnation check because it keeps no seen-id set.) -/
theorem posts_400_terminates :
    (∀ (req : Nat → Nat → Response PostItem) (fuel page : Nat)
        (data : List PostItem), req page 20 = Response.http 400 data →
      fetchPostsAux req (fuel + 1) page = some ([], [(page, 20)])) ∧
    (∀ (req : Nat → Nat → Response PostItem) (fuel : Nat)
        (its : List PostItem) (reqs : List (Nat × Nat)),
      fetch_all_posts req fuel = some (its, reqs) → ∀ r ∈ reqs, r.2 = 20) := by
  constructor
  · intro req fuel page data hresp
    rw [fetchPostsAux, hresp]
    simp
  · intro req fuel its reqs h
    exact fetchPostsAux_sizes req fuel 1 its reqs h

/-- Witness for `posts_400_terminates` at the all-400 endpoint. -/
theorem posts_400_terminates_witness :
    fetchPostsAux alwaysBadRequest 1 1 = some ([], [(1, 20)]) ∧
    ((1, 20) : Nat × Nat).2 = 20 :=
  ⟨posts_400_terminates.1 alwaysBadRequest 0 1 [] rfl,
   posts_400_terminates.2 alwaysBadRequest 5 [] [(1, 20)] (by decide)
     (1, 20) (by simp)⟩

/-- The stagnation stop of the media paginator: a successful, non-empty
page all of whose ids are already in the seen set makes the loop return at
once, emitting nothing and issuing no further request. -/
lemma fetchMediaAux_stagnation (req : Nat → Nat → Response MediaItem)
    (fuel page perPage : Nat) (seen : Finset (Option Nat))
    (data : List MediaItem)
    (hresp : req page perPage = Response.http 200 data)
    (hne : data ≠ [])
    (hseen : ∀ it ∈ data, it.id ∈ seen) :
    fetchMediaAux req (fuel + 1) page perPage seen =
      some ([], [(page, perPage)]) := by
  rw [fetchMediaAux, hresp]
  have hstag : processPage seen data = ([], seen, []) :=
    processPage_all_seen data seen hseen
  simp [hstag, hne]

/-- **C5.** Early termination on stagnation: if a successfully fetched,
non-empty media page contains only ids already in the seen set, the
paginator terminates immediately — it emits no item from that page and
issues no request after that page's. -/
theorem media_stagnation_stops (req : Nat → Nat → Response MediaItem)
    (fuel page perPage : Nat) (seen : Finset (Option Nat))
    (data : List MediaItem)
    (hresp : req page perPage = Response.http 200 data)
    (hne : data ≠ [])
    (hseen : ∀ it ∈ data, it.id ∈ seen) :
    fetchMediaAux req (fuel + 1) page perPage seen =
      some ([], [(page, perPage)]) :=
  fetchMediaAux_stagnation req fuel page perPage seen data hresp hne hseen

/-- Witness for `media_stagnation_stops`: with id 5 already seen, the
endpoint repeating item 5 stops after one request, emitting nothing. -/
theorem media_stagnation_stops_witness :
    fetchMediaAux stagnantMediaEndpoint 4 1 100 {some 5} =
      some ([], [(1, 100)]) :=
  media_stagnation_stops stagnantMediaEndpoint 3 1 100 {some 5}
    [⟨some 5, none, none⟩] rfl (by decide) (by decide)

/-- Every successful run's request trace starts with the state's own
(page, per_page) pair. -/
lemma fetchMediaAux_head (req : Nat → Nat → Response MediaItem)
    (fuel page perPage : Nat) (seen : Finset (Option Nat))
    (its : List MediaItem) (reqs : List (Nat × Nat))
    (h : fetchMediaAux req fuel page perPage seen = some (its, reqs)) :
    ∃ tl, reqs = (page, perPage) :: tl := by
  cases fuel with
  | zero => simp [fetchMediaAux] at h
  | succ n =>
    rw [fetchMediaAux] at h
    cases hresp : req page perPage with
    | exn =>
      rw [hresp] at h
      dsimp only at h
      simp only [Option.some.injEq, Prod.mk.injEq] at h
      exact ⟨[], h.2.symm⟩
    | http code data =>
      rw [hresp] at h
      dsimp only at h
      by_cases h400 : code = 400
      · rw [if_pos h400] at h
        by_cases hpp : perPage > 1
        · rw [if_pos hpp] at h
          obtain ⟨⟨its0, reqs0⟩, hrec, heq2⟩ := Option.map_eq_some'.mp h
          simp only [Prod.mk.injEq] at heq2
          exact ⟨reqs0, heq2.2.symm⟩
        · rw [if_neg hpp] at h
          simp only [Option.some.injEq, Prod.mk.injEq] at h
          exact ⟨[], h.2.symm⟩
      · rw [if_neg h400] at h
        by_cases h200 : code = 200
        · rw [if_pos h200] at h
          by_cases hempty : data.isEmpty = true
          · rw [if_pos hempty] at h
            simp only [Option.some.injEq, Prod.mk.injEq] at h
            exact ⟨[], h.2.symm⟩
          · rw [if_neg hempty] at h
            by_cases hstag : (processPage seen data).2.2.isEmpty = true
            · rw [if_pos hstag] at h
              simp only [Option.some.injEq, Prod.mk.injEq] at h
              exact ⟨[], h.2.symm⟩
            · rw [if_neg hstag] at h
              obtain ⟨⟨its0, reqs0⟩, hrec, heq2⟩ := Option.map_eq_some'.mp h
              simp only [Prod.mk.injEq] at heq2
              exact ⟨reqs0, heq2.2.symm⟩
        · rw [if_neg h200] at h
          simp only [Option.some.injEq, Prod.mk.injEq] at h
          exact ⟨[], h.2.symm⟩
/-- After a 400 response, the media paginator's next request — when the
rejected size exceeded 1 — uses the same page number and the floor-halved
size; a 400 at size 1 makes that request the run's last. -/
lemma fetchMediaAux_trace400 (req : Nat → Nat → Response MediaItem) :
    ∀ fuel page perPage seen its reqs,
      fetchMediaAux req fuel page perPage seen = some (its, reqs) →
      ∀ i (hi : i < reqs.length) (d : List MediaItem),
        req (reqs.get ⟨i, hi⟩).1 (reqs.get ⟨i, hi⟩).2 = Response.http 400 d →
        (1 < (reqs.get ⟨i, hi⟩).2 →
          ∃ hj : i + 1 < reqs.length,
            reqs.get ⟨i + 1, hj⟩ =
              ((reqs.get ⟨i, hi⟩).1, (reqs.get ⟨i, hi⟩).2 / 2)) ∧
        ((reqs.get ⟨i, hi⟩).2 = 1 → i + 1 = reqs.length) := by
  intro fuel
  induction fuel with
  | zero => intro page perPage seen its reqs h; simp [fetchMediaAux] at h
  | succ n ih =>
    intro page perPage seen its reqs h
    rw [fetchMediaAux] at h
    cases hresp : req page perPage with
    | exn =>
      rw [hresp] at h
      dsimp only at h
      simp only [Option.some.injEq, Prod.mk.injEq] at h
      obtain ⟨-, h2⟩ := h
      subst h2
      intro i hi d h400
      cases i with
      | zero =>
        simp only [List.get] at h400
        rw [hresp] at h400
        simp at h400
      | succ j => simp only [List.length_singleton] at hi; omega
    | http code data =>
      rw [hresp] at h
      dsimp only at h
      by_cases h400c : code = 400
      · rw [if_pos h400c] at h
        by_cases hpp : perPage > 1
        · rw [if_pos hpp] at h
          obtain ⟨⟨its0, reqs0⟩, hrec, heq2⟩ := Option.map_eq_some'.mp h
          simp only [Prod.mk.injEq] at heq2
          obtain ⟨-, h2⟩ := heq2
          subst h2
          intro i hi d h400
          cases i with
          | zero =>
            have hget0 : ((page, perPage) :: reqs0).get ⟨0, hi⟩ = (page, perPage) :=
              rfl
            rw [hget0]
            constructor
            · intro h1pp
              obtain ⟨tl0, htl⟩ := fetchMediaAux_head req n page
                (max 1 (perPage / 2)) seen its0 reqs0 hrec
              subst htl
              refine ⟨by simp, ?_⟩
              show ((page, max 1 (perPage / 2)) : Nat × Nat) = (page, perPage / 2)
              have hmax : max 1 (perPage / 2) = perPage / 2 := by omega
              rw [hmax]
            · intro hpp1; omega
          | succ j =>
            have hj : j < reqs0.length := by
              simp only [List.length_cons] at hi; omega
            obtain ⟨hA, hB⟩ := ih page (max 1 (perPage / 2)) seen its0 reqs0
              hrec j hj d h400
            constructor
            · intro h1pp
              obtain ⟨hj2, hval⟩ := hA h1pp
              exact ⟨by simp only [List.length_cons]; omega, hval⟩
            · intro hpp1
              have := hB hpp1
              simp only [List.length_cons]
              omega
        · rw [if_neg hpp] at h
          simp only [Option.some.injEq, Prod.mk.injEq] at h
          obtain ⟨-, h2⟩ := h
          subst h2
          intro i hi d h400
          cases i with
          | zero =>
            have hget0 : [(page, perPage)].get ⟨0, hi⟩ = (page, perPage) := rfl
            rw [hget0] at h400 ⊢
            exact ⟨fun h1pp => absurd h1pp hpp, fun _ => by simp⟩
          | succ j => simp only [List.length_singleton] at hi; omega
      · rw [if_neg h400c] at h
        by_cases h200 : code = 200
        · rw [if_pos h200] at h
          by_cases hempty : data.isEmpty = true
          · rw [if_pos hempty] at h
            simp only [Option.some.injEq, Prod.mk.injEq] at h
            obtain ⟨-, h2⟩ := h
            subst h2
            intro i hi d h400
            cases i with
            | zero =>
              simp only [List.get] at h400
              rw [hresp] at h400
              simp only [Response.http.injEq] at h400
              exact absurd h400.1 (by omega)
            | succ j => simp only [List.length_singleton] at hi; omega
          · rw [if_neg hempty] at h
            by_cases hstag : (processPage seen data).2.2.isEmpty = true
            · rw [if_pos hstag] at h
              simp only [Option.some.injEq, Prod.mk.injEq] at h
              obtain ⟨-, h2⟩ := h
              subst h2
              intro i hi d h400
              cases i with
              | zero =>
                simp only [List.get] at h400
                rw [hresp] at h400
                simp only [Response.http.injEq] at h400
                exact absurd h400.1 (by omega)
              | succ j => simp only [List.length_singleton] at hi; omega
            · rw [if_neg hstag] at h
              obtain ⟨⟨its0, reqs0⟩, hrec, heq2⟩ := Option.map_eq_some'.mp h
              simp only [Prod.mk.injEq] at heq2
              obtain ⟨-, h2⟩ := heq2
              subst h2
              intro i hi d h400
              cases i with
              | zero =>
                simp only [List.get] at h400
                rw [hresp] at h400
                simp only [Response.http.injEq] at h400
                exact absurd h400.1 (by omega)
              | succ j =>
                have hj : j < reqs0.length := by
                  simp only [List.length_cons] at hi; omega
                obtain ⟨hA, hB⟩ := ih (page + 1) perPage
                  (processPage seen data).2.1 its0 reqs0 hrec j hj d h400
                constructor
                · intro h1pp
                  obtain ⟨hj2, hval⟩ := hA h1pp
                  exact ⟨by simp only [List.length_cons]; omega, hval⟩
                · intro hpp1
                  have := hB hpp1
                  simp only [List.length_cons]
                  omega
        · rw [if_neg h200] at h
          simp only [Option.some.injEq, Prod.mk.injEq] at h
          obtain ⟨-, h2⟩ := h
          subst h2
          intro i hi d h400
          cases i with
          | zero =>
            simp only [List.get] at h400
            rw [hresp] at h400
            simp only [Response.http.injEq] at h400
            exact absurd h400.1 (by omega)
          | succ j => simp only [List.length_singleton] at hi; omega

/-- Along a successful run from a state with positive page size, every
request's size lies in [1, current size], and the sizes are monotonically
non-increasing along the trace. -/
lemma fetchMediaAux_sizes (req : Nat → Nat → Response MediaItem) :
    ∀ fuel page perPage seen its reqs,
      1 ≤ perPage →
      fetchMediaAux req fuel page perPage seen = some (its, reqs) →
      (∀ r ∈ reqs, 1 ≤ r.2 ∧ r.2 ≤ perPage) ∧
      (reqs.map Prod.snd).Pairwise (fun a b => b ≤ a) := by
  intro fuel
  induction fuel with
  | zero => intro page perPage seen its reqs _ h; simp [fetchMediaAux] at h
  | succ n ih =>
    intro page perPage seen its reqs hpp1 h
    rw [fetchMediaAux] at h
    cases hresp : req page perPage with
    | exn =>
      rw [hresp] at h
      dsimp only at h
      simp only [Option.some.injEq, Prod.mk.injEq] at h
      obtain ⟨-, h2⟩ := h
      subst h2
      constructor
      · intro r hr
        simp only [List.mem_singleton] at hr
        subst hr
        exact ⟨hpp1, le_refl _⟩
      · simp
    | http code data =>
      rw [hresp] at h
      dsimp only at h
      by_cases h400c : code = 400
      · rw [if_pos h400c] at h
        by_cases hpp : perPage > 1
        · rw [if_pos hpp] at h
          obtain ⟨⟨its0, reqs0⟩, hrec, heq2⟩ := Option.map_eq_some'.mp h
          simp only [Prod.mk.injEq] at heq2
          obtain ⟨-, h2⟩ := heq2
          subst h2
          have hle : max 1 (perPage / 2) ≤ perPage := by omega
          obtain ⟨hbound, hpair⟩ := ih page (max 1 (perPage / 2)) seen
            its0 reqs0 (le_max_left _ _) hrec
          constructor
          · intro r hr
            rcases List.mem_cons.mp hr with hcase | hcase
            · subst hcase; exact ⟨hpp1, le_refl _⟩
            · obtain ⟨ha, hb⟩ := hbound r hcase
              exact ⟨ha, le_trans hb hle⟩
          · rw [List.map_cons, List.pairwise_cons]
            refine ⟨?_, hpair⟩
            intro b hb
            obtain ⟨r, hrmem, hrsnd⟩ := List.mem_map.mp hb
            obtain ⟨-, hb2⟩ := hbound r hrmem
            subst hrsnd
            exact le_trans hb2 hle
        · rw [if_neg hpp] at h
          simp only [Option.some.injEq, Prod.mk.injEq] at h
          obtain ⟨-, h2⟩ := h
          subst h2
          constructor
          · intro r hr
            simp only [List.mem_singleton] at hr
            subst hr
            exact ⟨hpp1, le_refl _⟩
          · simp
      · rw [if_neg h400c] at h
        by_cases h200 : code = 200
        · rw [if_pos h200] at h
          by_cases hempty : data.isEmpty = true
          · rw [if_pos hempty] at h
            simp only [Option.some.injEq, Prod.mk.injEq] at h
            obtain ⟨-, h2⟩ := h
            subst h2
            constructor
            · intro r hr
              simp only [List.mem_singleton] at hr
              subst hr
              exact ⟨hpp1, le_refl _⟩
            · simp
          · rw [if_neg hempty] at h
            by_cases hstag : (processPage seen data).2.2.isEmpty = true
            · rw [if_pos hstag] at h
              simp only [Option.some.injEq, Prod.mk.injEq] at h
              obtain ⟨-, h2⟩ := h
              subst h2
              constructor
              · intro r hr
                simp only [List.mem_singleton] at hr
                subst hr
                exact ⟨hpp1, le_refl _⟩
              · simp
            · rw [if_neg hstag] at h
              obtain ⟨⟨its0, reqs0⟩, hrec, heq2⟩ := Option.map_eq_some'.mp h
              simp only [Prod.mk.injEq] at heq2
              obtain ⟨-, h2⟩ := heq2
              subst h2
              obtain ⟨hbound, hpair⟩ := ih (page + 1) perPage
                (processPage seen data).2.1 its0 reqs0 hpp1 hrec
              constructor
              · intro r hr
                rcases List.mem_cons.mp hr with hcase | hcase
                · subst hcase; exact ⟨hpp1, le_refl _⟩
                · exact hbound r hcase
              · rw [List.map_cons, List.pairwise_cons]
                refine ⟨?_, hpair⟩
                intro b hb
                obtain ⟨r, hrmem, hrsnd⟩ := List.mem_map.mp hb
                obtain ⟨-, hb2⟩ := hbound r hrmem
                subst hrsnd
                exact hb2
        · rw [if_neg h200] at h
          simp only [Option.some.injEq, Prod.mk.injEq] at h
          obtain ⟨-, h2⟩ := h
          subst h2
          constructor
          · intro r hr
            simp only [List.mem_singleton] at hr
            subst hr
            exact ⟨hpp1, le_refl _⟩
          · simp

/-- **C2.** The shrink protocol of the primary (media) paginator: every
issued request has page size ≥ 1; the sizes along the request trace are
monotonically non-increasing; after a 400 response at a size greater than 1
the very next request is issued with the same page number and the
floor-halved size; and a 400 response at size 1 terminates pagination (that
request is the run's last). -/
theorem media_shrink_protocol (req : Nat → Nat → Response MediaItem)
    (fuel : Nat) (its : List MediaItem) (reqs : List (Nat × Nat))
    (h : fetch_all_media_items req fuel = some (its, reqs)) :
    (∀ r ∈ reqs, 1 ≤ r.2) ∧
    (reqs.map Prod.snd).Pairwise (fun a b => b ≤ a) ∧
    (∀ i (hi : i < reqs.length) (d : List MediaItem),
      req (reqs.get ⟨i, hi⟩).1 (reqs.get ⟨i, hi⟩).2 = Response.http 400 d →
      (1 < (reqs.get ⟨i, hi⟩).2 →
        ∃ hj : i + 1 < reqs.length,
          reqs.get ⟨i + 1, hj⟩ =
            ((reqs.get ⟨i, hi⟩).1, (reqs.get ⟨i, hi⟩).2 / 2)) ∧
      ((reqs.get ⟨i, hi⟩).2 = 1 → i + 1 = reqs.length)) := by
  obtain ⟨hbound, hpair⟩ := fetchMediaAux_sizes req fuel 1 INITIAL_PER_PAGE ∅
    its reqs (by norm_num [INITIAL_PER_PAGE]) h
  exact ⟨fun r hr => (hbound r hr).1, hpair,
    fetchMediaAux_trace400 req fuel 1 INITIAL_PER_PAGE ∅ its reqs h⟩

/-- Witness for `media_shrink_protocol` on the endpoint rejecting sizes
above 25 (trace (1,100), (1,50), (1,25), (2,25), (3,25)). -/
theorem media_shrink_protocol_witness : 1 ≤ ((1, 100) : Nat × Nat).2 :=
  (media_shrink_protocol shrinkMediaEndpoint 20
    [⟨some 1, none, none⟩, ⟨some 2, none, none⟩]
    [(1, 100), (1, 50), (1, 25), (2, 25), (3, 25)] (by decide)).1
    (1, 100) (by simp)

/-- Fuel monotonicity: a run that completes within `fuel` steps returns the
same result with any larger fuel. -/
lemma fetchMediaAux_mono (req : Nat → Nat → Response MediaItem) :
    ∀ fuel fuel' page perPage seen r,
      fetchMediaAux req fuel page perPage seen = some r → fuel ≤ fuel' →
      fetchMediaAux req fuel' page perPage seen = some r := by
  intro fuel
  induction fuel with
  | zero => intro fuel' page perPage seen r h; simp [fetchMediaAux] at h
  | succ n ih =>
    intro fuel' page perPage seen r h hle
    cases fuel' with
    | zero => omega
    | succ m =>
      have hnm : n ≤ m := by omega
      rw [fetchMediaAux] at h ⊢
      cases hresp : req page perPage with
      | exn =>
        rw [hresp] at h
        exact h
      | http code data =>
        rw [hresp] at h
        dsimp only at h ⊢
        by_cases h400c : code = 400
        · rw [if_pos h400c] at h ⊢
          by_cases hpp : perPage > 1
          · rw [if_pos hpp] at h ⊢
            obtain ⟨r0, hrec, heq2⟩ := Option.map_eq_some'.mp h
            rw [ih m page (max 1 (perPage / 2)) seen r0 hrec hnm]
            simp [heq2]
          · rw [if_neg hpp] at h ⊢
            exact h
        · rw [if_neg h400c] at h ⊢
          by_cases h200 : code = 200
          · rw [if_pos h200] at h ⊢
            by_cases hempty : data.isEmpty = true
            · rw [if_pos hempty] at h ⊢
              exact h
            · rw [if_neg hempty] at h ⊢
              by_cases hstag : (processPage seen data).2.2.isEmpty = true
              · rw [if_pos hstag] at h ⊢
                exact h
              · rw [if_neg hstag] at h ⊢
                obtain ⟨r0, hrec, heq2⟩ := Option.map_eq_some'.mp h
                rw [ih m (page + 1) perPage (processPage seen data).2.1 r0 hrec hnm]
                simp [heq2]
          · rw [if_neg h200] at h ⊢
            exact h

/-- Progress: when every id the endpoint can return on a 200 lies in the
finite set `S`, fuel exceeding `(S \ seen).card + perPage` suffices for the
loop to reach one of its stopping conditions — every iteration either
shrinks the page size or strictly grows the seen set inside `S`. -/
lemma fetchMediaAux_isSome (req : Nat → Nat → Response MediaItem)
    (S : Finset (Option Nat))
    (hS : ∀ p s items, req p s = Response.http 200 items →
      ∀ it ∈ items, it.id ∈ S) :
    ∀ fuel page perPage seen,
      (S \ seen).card + perPage < fuel →
      (fetchMediaAux req fuel page perPage seen).isSome := by
  intro fuel
  induction fuel with
  | zero => intro page perPage seen hlt; omega
  | succ n ih =>
    intro page perPage seen hlt
    rw [fetchMediaAux]
    cases hresp : req page perPage with
    | exn => simp
    | http code data =>
      dsimp only
      by_cases h400c : code = 400
      · rw [if_pos h400c]
        by_cases hpp : perPage > 1
        · rw [if_pos hpp]
          have hrec := ih page (max 1 (perPage / 2)) seen (by omega)
          obtain ⟨r0, hr0⟩ := Option.isSome_iff_exists.mp hrec
          rw [hr0]
          simp
        · rw [if_neg hpp]; simp
      · rw [if_neg h400c]
        by_cases h200 : code = 200
        · rw [if_pos h200]
          by_cases hempty : data.isEmpty = true
          · rw [if_pos hempty]; simp
          · rw [if_neg hempty]
            by_cases hstag : (processPage seen data).2.2.isEmpty = true
            · rw [if_pos hstag]; simp
            · rw [if_neg hstag]
              rw [h200] at hresp
              have hne1 : (processPage seen data).1 ≠ [] := by
                intro hnil
                rw [processPage_newIds_eq data seen, hnil] at hstag
                simp at hstag
              obtain ⟨it, hmem1⟩ := List.exists_mem_of_ne_nil _ hne1
              obtain ⟨hmemdata, hnotseen, hinseen2⟩ :=
                processPage_items_mem data seen it hmem1
              have hidS : it.id ∈ S := hS page perPage data hresp it hmemdata
              have hsub : S \ (processPage seen data).2.1 ⊆ S \ seen := by
                intro x hx
                rw [Finset.mem_sdiff] at hx ⊢
                exact ⟨hx.1, fun hxe =>
                  hx.2 (processPage_seen_subset data seen hxe)⟩
              have hssub : S \ (processPage seen data).2.1 ⊂ S \ seen := by
                rw [Finset.ssubset_iff_of_subset hsub]
                exact ⟨it.id, Finset.mem_sdiff.mpr ⟨hidS, hnotseen⟩,
                  fun hx => (Finset.mem_sdiff.mp hx).2 hinseen2⟩
              have hcard := Finset.card_lt_card hssub
              have hrec := ih (page + 1) perPage (processPage seen data).2.1
                (by omega)
              obtain ⟨r0, hr0⟩ := Option.isSome_iff_exists.mp hrec
              rw [hr0]
              simp
        · rw [if_neg h200]; simp

/-- **C4.** The primary paginator terminates on every run: whenever the set
of distinct item ids the endpoint can ever return is contained in a finite
set `S`, fuel beyond `S.card + INITIAL_PER_PAGE` completes the enumeration
(every loop iteration either advances the page with at least one new id,
strictly shrinks the page size toward the floor of 1, or stops outright),
and the result is independent of any further fuel — a total, terminating
function of the endpoint. -/
theorem media_pagination_terminates (req : Nat → Nat → Response MediaItem)
    (S : Finset (Option Nat))
    (hS : ∀ p s items, req p s = Response.http 200 items →
      ∀ it ∈ items, it.id ∈ S)
    (fuel : Nat) (hfuel : S.card + INITIAL_PER_PAGE < fuel) :
    (fetch_all_media_items req fuel).isSome ∧
    ∀ bigger, fuel ≤ bigger →
      fetch_all_media_items req bigger = fetch_all_media_items req fuel := by
  have h1 : (fetch_all_media_items req fuel).isSome := by
    apply fetchMediaAux_isSome req S hS
    simpa using hfuel
  refine ⟨h1, ?_⟩
  intro bigger hb
  obtain ⟨r, hr⟩ := Option.isSome_iff_exists.mp h1
  rw [hr]
  exact fetchMediaAux_mono req fuel bigger 1 INITIAL_PER_PAGE ∅ r hr hb

/-- Witness for `media_pagination_terminates`: the empty collection
(id set ∅) completes within fuel 101. -/
theorem media_pagination_terminates_witness :
    (fetch_all_media_items emptyMediaEndpoint 101).isSome :=
  (media_pagination_terminates emptyMediaEndpoint ∅
    (fun p s items h it hit => by
      simp only [emptyMediaEndpoint, Response.http.injEq] at h
      rw [← h.2] at hit
      cases hit)
    101 (by decide)).1

/-- No month exceeds 31 days. -/
lemma daysInMonth_le (y m : Nat) : daysInMonth y m ≤ 31 := by
  unfold daysInMonth
  split
  · split <;> omega
  · split <;> omega

/-- A successful ISO parse always yields a month in [1, 12] and a day in
[1, 31]. -/
lemma parseIsoDate_valid (cs : List Char) (y m d : Nat)
    (h : parseIsoDate cs = some (y, m, d)) :
    1 ≤ m ∧ m ≤ 12 ∧ 1 ≤ d ∧ d ≤ 31 := by
  unfold parseIsoDate at h
  split at h
  · split at h
    · rename_i y1 y2 y3 y4 s1 m1 m2 s2 d1 d2 rest hguard
      simp only [Option.some.injEq, Prod.mk.injEq] at h
      obtain ⟨hy, hm, hd⟩ := h
      subst hy; subst hm; subst hd
      simp only [Bool.and_eq_true, decide_eq_true_eq] at hguard
      have h1m : 1 ≤ digitVal m1 * 10 + digitVal m2 := by tauto
      have h2m : digitVal m1 * 10 + digitVal m2 ≤ 12 := by tauto
      have h1d : 1 ≤ digitVal d1 * 10 + digitVal d2 := by tauto
      have h2d : digitVal d1 * 10 + digitVal d2 ≤
          daysInMonth
            (((digitVal y1 * 10 + digitVal y2) * 10 + digitVal y3) * 10 +
              digitVal y4)
            (digitVal m1 * 10 + digitVal m2) := by tauto
      exact ⟨h1m, h2m, h1d, le_trans h2d (daysInMonth_le _ _)⟩
    · simp at h
  · simp at h

/-- **C10.** Date-hint resolution is total on strings: for every string it
returns either a formatted calendar date with month in [1, 12] and day in
[1, 31], or the `"unknown-date"` sentinel — the parse failure is the only
error a string input can provoke, and it is caught. -/
theorem date_bucket_total (s : String) :
    get_date_subfolder s = "unknown-date" ∨
    ∃ y m d, 1 ≤ m ∧ m ≤ 12 ∧ 1 ≤ d ∧ d ≤ 31 ∧
      get_date_subfolder s = formatDate y m d := by
  unfold get_date_subfolder
  cases hp : parseIsoDate (s.data.filter (fun c => c != 'Z')) with
  | none => left; rfl
  | some t =>
    obtain ⟨y, m, d⟩ := t
    right
    obtain ⟨h1, h2, h3, h4⟩ := parseIsoDate_valid _ y m d hp
    exact ⟨y, m, d, h1, h2, h3, h4, rfl⟩

/-- **C8.** Date-hint resolution: `"2024-01-15T10:12:30"` resolves to the
bucket `"2024-01-15"`; the empty string and `"not-a-date"` resolve to the
`"unknown-date"` sentinel; a trailing `"Z"` zone marker is tolerated; and
any string whose calendar-date parse fails is recovered locally to the
sentinel, never surfaced as an error. -/
theorem date_bucket_resolution :
    get_date_subfolder "2024-01-15T10:12:30" = "2024-01-15" ∧
    get_date_subfolder "" = "unknown-date" ∧
    get_date_subfolder "not-a-date" = "unknown-date" ∧
    get_date_subfolder "2024-01-15T10:12:30Z" = "2024-01-15" ∧
    ∀ s : String,
      parseIsoDate (s.data.filter (fun c => c != 'Z')) = none →
      get_date_subfolder s = "unknown-date" := by
  refine ⟨by decide, by decide, by decide, by decide, ?_⟩
  intro s hp
  unfold get_date_subfolder
  rw [hp]

/-- Witness for `date_bucket_resolution`'s recovery clause at a concrete
malformed timestamp. -/
theorem date_bucket_resolution_witness :
    get_date_subfolder "nope" = "unknown-date" :=
  date_bucket_resolution.2.2.2.2 "nope" (by decide)

/-- **C7.** Reference normalization in the Markup Extractor: the source's
inline normalization agrees with the spec's rule for every raw reference
(scheme-relative → `https:` prefix; site-relative → resolved against the
base; otherwise unchanged), and on the spec's three concrete examples it
produces exactly the stated outputs. -/
theorem image_reference_normalization :
    (∀ (siteUrl : String) (posts : List PostItem),
      parse_images_from_posts siteUrl posts =
        posts.flatMap (fun p => p.imgSrcs.map
          (fun src => (normalizeRefSpec siteUrl src, postDateStr p)))) ∧
    parse_images_from_posts "https://site.test"
        [⟨some 1, some "2024-01-15T10:12:30",
          ["//img.example/x.png", "/media/x.png", "https://cdn.test/x.png"]⟩] =
      [("https://img.example/x.png", "2024-01-15T10:12:30"),
       ("https://site.test/media/x.png", "2024-01-15T10:12:30"),
       ("https://cdn.test/x.png", "2024-01-15T10:12:30")] := by
  refine ⟨fun siteUrl posts => rfl, by decide⟩

/-- **C3.** The fallback fires exactly once, and exactly when the primary
enumeration yields zero items: every completed `main` trace contains the
primary enumeration exactly once, and contains the secondary enumeration
once if the primary's item list was empty and not at all otherwise — the
PRIMARY→FALLBACK transition fires at most once and FALLBACK is terminal. -/
theorem fallback_fires_iff_primary_empty
    (reqM : Nat → Nat → Response MediaItem)
    (reqP : Nat → Nat → Response PostItem) (siteUrl : String)
    (fuelM fuelP : Nat) (tr : List Event)
    (h : mainEvents reqM reqP siteUrl fuelM fuelP = some tr) :
    tr.count Event.fetchMedia = 1 ∧
    tr.count Event.fetchPosts =
      (if (fetch_all_media_items reqM fuelM).map (fun r => r.1.isEmpty) =
          some true then 1 else 0) := by
  unfold mainEvents at h
  cases hm : fetch_all_media_items reqM fuelM with
  | none => rw [hm] at h; simp at h
  | some mr =>
    obtain ⟨mediaItems, mreqs⟩ := mr
    rw [hm] at h
    dsimp only at h
    by_cases hem : mediaItems.isEmpty = true
    · rw [if_pos hem] at h
      cases hp : fetch_all_posts reqP fuelP with
      | none => rw [hp] at h; simp at h
      | some pr =>
        obtain ⟨posts, preqs⟩ := pr
        rw [hp] at h
        dsimp only at h
        simp only [Option.some.injEq] at h
        subst h
        have hc1 : List.count Event.fetchMedia
            ((parse_images_from_posts siteUrl posts).map
              (fun pr => Event.download pr.1 pr.2)) = 0 := by
          rw [List.count_eq_zero]
          intro hmem
          obtain ⟨q, -, heq⟩ := List.mem_map.mp hmem
          simp at heq
        have hc2 : List.count Event.fetchPosts
            ((parse_images_from_posts siteUrl posts).map
              (fun pr => Event.download pr.1 pr.2)) = 0 := by
          rw [List.count_eq_zero]
          intro hmem
          obtain ⟨q, -, heq⟩ := List.mem_map.mp hmem
          simp at heq
        constructor
        · simp [List.count_cons, hc1]
        · simp [List.count_cons, hc2, hem]
    · rw [if_neg hem] at h
      simp only [Option.some.injEq] at h
      subst h
      have hdl : ∀ e ∈ mediaItems.flatMap (fun it =>
          match it.source_url with
          | some u => [Event.download u (mediaDateStr it)]
          | none => ([] : List Event)),
          e ≠ Event.fetchMedia ∧ e ≠ Event.fetchPosts := by
        intro e hmem
        obtain ⟨it, -, hin⟩ := List.mem_flatMap.mp hmem
        cases hu : it.source_url with
        | some u =>
          rw [hu] at hin
          simp only [List.mem_singleton] at hin
          subst hin
          exact ⟨by simp, by simp⟩
        | none => rw [hu] at hin; simp at hin
      have hc1 : List.count Event.fetchMedia
          (mediaItems.flatMap (fun it =>
            match it.source_url with
            | some u => [Event.download u (mediaDateStr it)]
            | none => ([] : List Event))) = 0 := by
        rw [List.count_eq_zero]
        intro hmem
        exact (hdl _ hmem).1 rfl
      have hc2 : List.count Event.fetchPosts
          (mediaItems.flatMap (fun it =>
            match it.source_url with
            | some u => [Event.download u (mediaDateStr it)]
            | none => ([] : List Event))) = 0 := by
        rw [List.count_eq_zero]
        intro hmem
        exact (hdl _ hmem).2 rfl
      constructor
      · simp [List.count_cons, hc1]
      · simp [List.count_cons, hc2, hem]

/-- Witness for `fallback_fires_iff_primary_empty`: an empty primary
collection drives the fallback exactly once. -/
theorem fallback_fires_iff_primary_empty_witness :
    ([Event.fetchMedia, Event.fetchPosts].count Event.fetchMedia = 1) ∧
    ([Event.fetchMedia, Event.fetchPosts].count Event.fetchPosts =
      if (fetch_all_media_items emptyMediaEndpoint 5).map
          (fun r => r.1.isEmpty) = some true then 1 else 0) :=
  fallback_fires_iff_primary_empty emptyMediaEndpoint emptyPostsEndpoint
    "https://site.test" 5 5 [Event.fetchMedia, Event.fetchPosts] (by decide)
